import Mathlib

/-!
A verification development for the User-Feedback-Analyzer GraphRAG pipeline.

The repository builds a knowledge graph out of entities extracted from app
reviews (`graph_builder.py`), detects communities, summarizes them, builds a
vector index over entity values, and answers queries by local-search retrieval
(`query_engine.py`).  This file gives a shallow embedding of those components:

* the graph store is a `Graph` (nodes are an ordered association list keyed by
  entity id, matching `networkx.MultiDiGraph` insertion-order semantics; edges
  are an ordered list of (source, target, type) triples);
* external backends (entity extraction, text generation, text embedding, the
  `networkx` community-detection routine and the faiss nearest-neighbor
  search) are opaque function parameters, exactly the interfaces the code
  calls;
* Python exceptions that the code does not catch are modelled by `Option`
  results (`none` = an exception propagates); caught exceptions are modelled
  at the call site the code catches them.
-/

namespace UFA

/-- Attribute dictionary of one graph node, as `graph_builder.py` populates it:
`add_node(id, type=..., value=..., source_file=...)` sets the first three,
community detection later sets `community_id`.  Each field is optional because
a `networkx` attribute dictionary may lack any key (`node_data.get(...)`
returns `None` then). -/
structure NodeData where
  type : Option String
  value : Option String
  source_file : Option String
  community_id : Option Nat
deriving DecidableEq, Repr

/-- The knowledge-graph store: a `networkx.MultiDiGraph` with node attributes.
`nodes` keeps insertion order (as `networkx` dictionaries do); `edges` is the
multiset of directed edges (source, target, type), parallel edges allowed. -/
structure Graph where
  nodes : List (String × NodeData)
  edges : List (String × String × String)
deriving DecidableEq, Repr

def emptyGraph : Graph := ⟨[], []⟩

/-- The ids of the graph's nodes, in insertion order. -/
def nodeIds (G : Graph) : List String := G.nodes.map Prod.fst

/-- Attribute lookup `G.nodes[id]`; `none` models the `KeyError` raised when
the id is not a node. -/
def lookupNode (G : Graph) (id : String) : Option NodeData :=
  (G.nodes.find? (fun p => p.1 = id)).map Prod.snd

/-- `G.add_node(id, type=ty, value=v, source_file=sf)` (graph_builder.py line
171): `networkx` inserts a fresh node, and on an existing id UPDATES the given
attributes in place (any `community_id` already present is untouched). -/
def add_node (G : Graph) (id ty v sf : String) : Graph :=
  if id ∈ nodeIds G then
    { G with nodes := G.nodes.map (fun p =>
        if p.1 = id then
          (p.1, { p.2 with type := some ty, value := some v, source_file := some sf })
        else p) }
  else
    { G with nodes := G.nodes ++ [(id, ⟨some ty, some v, some sf, none⟩)] }

/-- The guarded edge insertion of graph_builder.py lines 172-174: an edge is
added only when both endpoints are already nodes; otherwise nothing happens. -/
def add_relationship (G : Graph) (src tgt ty : String) : Graph :=
  if src ∈ nodeIds G ∧ tgt ∈ nodeIds G then
    { G with edges := G.edges ++ [(src, tgt, ty)] }
  else G

/-- One entity of an extraction result (id, type, value). -/
structure Entity where
  id : String
  type : String
  value : String
deriving DecidableEq, Repr

/-- One relationship of an extraction result. -/
structure Relationship where
  source : String
  target : String
  type : String
deriving DecidableEq, Repr

/-- The JSON object `extract_entities_from_review` returns on success. -/
structure ExtractedData where
  entities : List Entity
  relationships : List Relationship
deriving DecidableEq, Repr

/-- Folding one review's extraction result into the graph (graph_builder.py
lines 168-174): skip on extraction failure, else add every entity as a node
and then every relationship as a guarded edge. -/
def processReview (G : Graph) (filename : String) (data : Option ExtractedData) : Graph :=
  match data with
  | none => G
  | some d =>
    let G1 := d.entities.foldl (fun g e => add_node g e.id e.type e.value filename) G
    d.relationships.foldl (fun g r => add_relationship g r.source r.target r.type) G1

/-- Step 1 of `build_knowledge_graph`: the initial graph built by folding the
review corpus (a list of (filename, text) pairs) through the extractor. -/
def buildGraphPhase (extract : String → Option ExtractedData)
    (reviews : List (String × String)) : Graph :=
  reviews.foldl (fun g fr => processReview g fr.1 (extract fr.2)) emptyGraph

/-- Undirected adjacency of the graph, the edge relation of the projection
`G.to_undirected()` that `detect_and_store_communities` hands to the community
detector: `x` and `y` are adjacent when some edge joins them in either
direction. -/
def adjU (G : Graph) (x y : String) : Prop :=
  ∃ t, (x, y, t) ∈ G.edges ∨ (y, x, t) ∈ G.edges

/-- A node with no incident edge at all (in particular no self-loop). -/
def Isolated (G : Graph) (x : String) : Prop := ∀ y, ¬ adjU G x y

/-- The agglomerative structure of `networkx.algorithms.community.greedy_modularity_communities`
(the library routine called on `G.to_undirected()` at graph_builder.py line 87;
the library itself is an external collaborator, so it is modelled by the shape
of its output rather than reimplemented): it starts from one singleton
community per node and repeatedly merges two communities, and a merge can only
ever join two communities connected by at least one edge — the CNM ΔQ heap
holds only adjacent community pairs, and for a non-adjacent pair the
modularity gain `-2 a_i a_j` is never positive.  Which adjacent pair is merged
(the greedy max-ΔQ choice) and the final ordering (the library sorts by size)
are abstracted: `perm` admits any reordering. -/
inductive CNM (G : Graph) : List (Finset String) → Prop
  | init : CNM G (G.nodes.map (fun p => ({p.1} : Finset String)))
  | merge (cs : List (Finset String)) (c₁ c₂ : Finset String)
      (h₁ : c₁ ∈ cs) (h₂ : c₂ ∈ cs) (hne : c₁ ≠ c₂)
      (hadj : ∃ x ∈ c₁, ∃ y ∈ c₂, adjU G x y)
      (hprev : CNM G cs) : CNM G ((c₁ ∪ c₂) :: (cs.erase c₁).erase c₂)
  | perm (cs cs' : List (Finset String)) (h : cs.Perm cs') (hprev : CNM G cs) :
      CNM G cs'

/-- The dict comprehension of graph_builder.py line 88,
`{node: i for i, community_nodes in enumerate(communities) for node in community_nodes}`:
iterate the communities with their index, each member node mapped to the
index; a later binding overwrites an earlier one. -/
def community_mapAux (x : String) : List (Nat × Finset String) → Option Nat → Option Nat
  | [], acc => acc
  | p :: rest, acc => community_mapAux x rest (if x ∈ p.2 then some p.1 else acc)

def community_map (communities : List (Finset String)) (x : String) : Option Nat :=
  community_mapAux x communities.enum none

/-- `nx.set_node_attributes(G, community_map, 'community_id')` (line 89): every
node the mapping covers gets its `community_id` attribute set; nodes absent
from the mapping keep their attributes unchanged. -/
def set_community_ids (G : Graph) (communities : List (Finset String)) : Graph :=
  { G with nodes := G.nodes.map (fun p =>
      match community_map communities p.1 with
      | some i => (p.1, { p.2 with community_id := some i })
      | none => p) }

/-- `detect_and_store_communities` (graph_builder.py lines 84-91), with the
library detector as an explicit parameter: compute the communities of the
undirected projection, tag every node, return the tagged graph and the
community list. -/
def detect_and_store_communities (detect : Graph → List (Finset String)) (G : Graph) :
    Graph × List (Finset String) :=
  let communities := detect G
  (set_community_ids G communities, communities)

/-- One line of the community-summary prompt, `- Entity: {value} (Type: {type})`
(graph_builder.py line 100).  A member id that is not a node would raise
`KeyError` in Python; the detector only ever returns graph nodes, and the
unreachable branch renders like an empty attribute dictionary. -/
def entityLine (G : Graph) (id : String) : String :=
  match lookupNode G id with
  | some d => "- Entity: " ++ d.value.getD "None" ++ " (Type: " ++ d.type.getD "None" ++ ")"
  | none => "- Entity: None (Type: None)"

/-- The per-community prompt of `generate_community_summaries` (lines 103-111);
frozenset iteration order is unspecified in Python, modelled as sorted. -/
def summaryPrompt (G : Graph) (c : Finset String) : String :=
  let context_str := String.intercalate "\n" ((c.sort (· ≤ ·)).map (entityLine G))
  "The following is a list of entities and concepts belonging to a single community detected within a knowledge graph of app reviews.\nSummarize the main theme or topic of this community in a single, concise sentence.\n\nEntities:\n"
    ++ context_str ++ "\n\nSummary:\n"

/-- Python `str.strip()`: whitespace removed from both ends. -/
def pyStrip (s : String) : String :=
  ⟨((s.data.dropWhile Char.isWhitespace).reverse.dropWhile Char.isWhitespace).reverse⟩

/-- `generate_community_summaries` (graph_builder.py lines 93-120): one backend
call per community, the stripped response text stored under the community's
index; a failed call stores the explicit failure marker and the build goes
on. -/
def generate_community_summaries (summarize : String → Option String) (G : Graph)
    (communities : List (Finset String)) : List (Nat × String) :=
  communities.enum.map (fun p =>
    (p.1, match summarize (summaryPrompt G p.2) with
          | some t => pyStrip t
          | none => "Summary generation failed."))

/-- A flat faiss index: the ordered rows added by `index.add(embeddings)`. -/
structure FaissIndex (Vec : Type) where
  rows : List Vec
deriving DecidableEq, Repr

/-- The single pass of `create_entity_embeddings_index` over `G.nodes(data=True)`
(graph_builder.py lines 124-129): every node whose attribute dictionary has a
`value` key contributes its (id, value) pair, in node order. -/
def entityValuePairs (G : Graph) : List (String × String) :=
  G.nodes.filterMap (fun p => p.2.value.map (fun v => (p.1, v)))

def entityValues (G : Graph) : List String := (entityValuePairs G).map Prod.snd

/-- `create_entity_embeddings_index` (graph_builder.py lines 122-154) with the
embedding backend as a parameter (`genai.embed_content` batched over all
values, one vector per value): `none` models both the explicit
`return None, None` when there is nothing to embed (line 131-133) and the
caught backend exception (lines 152-154); on success the faiss index holds the
returned vectors in order, paired with the parallel id list. -/
def create_entity_embeddings_index {Vec : Type} (embedBatch : List String → Option (List Vec))
    (G : Graph) : Option (FaissIndex Vec × List String) :=
  let node_ids := (entityValuePairs G).map Prod.fst
  let node_values := entityValues G
  if node_values.isEmpty then none
  else
    match embedBatch node_values with
    | some embeddings => some (⟨embeddings⟩, node_ids)
    | none => none

/-- The four artifacts `build_knowledge_graph` persists together in step 5
(graph.pkl, community_summaries.json, entity_embeddings.faiss,
faiss_node_ids.json). -/
structure Artifacts (Vec : Type) where
  graph : Graph
  community_summaries : List (Nat × String)
  faiss_index : FaissIndex Vec
  faiss_node_ids : List String
deriving DecidableEq, Repr

/-- `build_knowledge_graph` (graph_builder.py lines 156-203), backends as
parameters: build the initial graph from the corpus, abort (`none`, the
`return False` paths at lines 178-179 and 189-190) when the graph is empty or
the index step fails, otherwise tag communities, summarize, build the index
and return all four artifacts; nothing is persisted on the abort paths. -/
def build_knowledge_graph {Vec : Type} (extract : String → Option ExtractedData)
    (detect : Graph → List (Finset String)) (summarize : String → Option String)
    (embedBatch : List String → Option (List Vec))
    (reviews : List (String × String)) : Option (Artifacts Vec) :=
  if (buildGraphPhase extract reviews).nodes.length = 0 then none
  else
    match create_entity_embeddings_index embedBatch
        (detect_and_store_communities detect (buildGraphPhase extract reviews)).1 with
    | none => none
    | some p =>
      some ⟨(detect_and_store_communities detect (buildGraphPhase extract reviews)).1,
        generate_community_summaries summarize
          (detect_and_store_communities detect (buildGraphPhase extract reviews)).1
          (detect_and_store_communities detect (buildGraphPhase extract reviews)).2,
        p.1, p.2⟩

/-- Python list indexing `l[i]` for an `int` index, as used at query_engine.py
line 40 on the loaded id list: a non-negative index reads from the front, a
negative index `i` reads position `len(l) + i`, and an index out of range on
either side raises `IndexError` (`none`). -/
def pyGet (l : List String) (i : Int) : Option String :=
  let j : Int := if i < 0 then (l.length : Int) + i else i
  if 0 ≤ j then l.get? j.toNat else none

/-- How a Python f-string renders an attribute fetched with `.get` (which
yields `None` when the key is absent). -/
def optStr (o : Option String) : String := o.getD "None"

/-- `G.neighbors(node_id)` on the loaded `MultiDiGraph` (query_engine.py line
54): the SUCCESSORS of the node — each target of an out-edge, once, in first-
edge order.  Predecessors are not included; `networkx` only walks undirected
adjacency on an undirected graph, and the query engine never converts. -/
def successors (G : Graph) (id : String) : List String :=
  G.edges.foldl (fun acc e =>
    if e.1 = id ∧ e.2.1 ∉ acc then acc ++ [e.2.1] else acc) []

/-- The header line of one local-context fragment (query_engine.py line 52). -/
def entityHeader (d : NodeData) : String :=
  "Entity '" ++ optStr d.value ++ "' (Type: " ++ optStr d.type ++ ") is related to:"

/-- One neighbor line of a local-context fragment (query_engine.py line 56). -/
def neighborLine (d : NodeData) : String :=
  "  - '" ++ optStr d.value ++ "' (Type: " ++ optStr d.type ++ ")"

/-- The placeholder emitted when the neighbor list is empty (line 58). -/
def noRelLine : String := "  - No direct relationships found."

/-- The `neighbors_info` list built by the inner loop (query_engine.py lines
53-56), one line per neighbor id in order; `none` models the uncaught
`KeyError` of `G.nodes[neighbor_id]` on a dangling edge target. -/
def neighborLines (G : Graph) : List String → Option (List String)
  | [] => some []
  | nid :: rest =>
    match lookupNode G nid, neighborLines G rest with
    | some d, some lines => some (neighborLine d :: lines)
    | _, _ => none

def neighborsInfo (G : Graph) (id : String) : Option (List String) :=
  neighborLines G (successors G id)

/-- One community-context fragment (query_engine.py lines 64-65): the summary
looked up under the stringified community id, with the explicit default. -/
def communityLine (summaries : List (Nat × String)) (cid : Nat) : String :=
  "This topic belongs to a community summarized as: '"
    ++ ((summaries.lookup cid).getD "No summary available.") ++ "'"

/-- One grounding excerpt (query_engine.py line 75). -/
def sourceFragment (name text : String) : String :=
  "--- START OF RELEVANT REVIEW (" ++ name ++ ") ---\n" ++ text ++ "\n--- END OF REVIEW ---"

/-- The per-query accumulation state of `retrieve_and_build_context` steps 2a-2c:
the three fragment lists and the two dedup sets (query_engine.py lines 44-46). -/
structure RetState where
  local_graph : List String
  global_community : List String
  source_text : List String
  seen_communities : Finset Nat
  seen_source_files : Finset String
deriving DecidableEq

def initState : RetState := ⟨[], [], [], ∅, ∅⟩

/-- Step 2b (query_engine.py lines 61-66): append the community summary
fragment only for a present `community_id` not yet seen in this query, and
mark it seen. -/
def stepCommunity (summaries : List (Nat × String)) (st : RetState) :
    Option Nat → RetState
  | some cid =>
    if cid ∉ st.seen_communities then
      { st with
        global_community := st.global_community ++ [communityLine summaries cid]
        seen_communities := insert cid st.seen_communities }
    else st
  | none => st

/-- Step 2c (query_engine.py lines 68-78): for a present, truthy (non-empty),
not-yet-seen `source_file`, read the file and append the grounding excerpt,
marking the file seen only AFTER a successful read; a missing file
(`FileNotFoundError`, `fs sf = none`) is silently skipped. -/
def stepSource (fs : String → Option String) (st : RetState) : Option String → RetState
  | some sf =>
    if sf ≠ "" ∧ sf ∉ st.seen_source_files then
      match fs sf with
      | some text =>
        { st with
          source_text := st.source_text ++ [sourceFragment sf text]
          seen_source_files := insert sf st.seen_source_files }
      | none => st
    else st
  | none => st

/-- One iteration of the entry-point loop (query_engine.py lines 48-78), over
the review directory modelled as a partial map from filename to content.
`none` models the uncaught `KeyError` of `G.nodes[node_id]` (or of a neighbor
lookup); otherwise the fragment is appended (step 2a) and the community and
source steps run in order. -/
def process_entry (G : Graph) (summaries : List (Nat × String))
    (fs : String → Option String) (st : RetState) (node_id : String) : Option RetState :=
  match lookupNode G node_id with
  | none => none
  | some nd =>
    match neighborsInfo G node_id with
    | none => none
    | some ninfo =>
      let ninfo := if ninfo.isEmpty then [noRelLine] else ninfo
      let fragment := entityHeader nd ++ "\n" ++ String.intercalate "\n" ninfo
      let st1 := { st with local_graph := st.local_graph ++ [fragment] }
      some (stepSource fs (stepCommunity summaries st1 nd.community_id) nd.source_file)

/-- Step 3 of `retrieve_and_build_context` (query_engine.py lines 80-89): the
fixed header, then each non-empty section in fixed order. -/
def assembleContext (st : RetState) : String :=
  let base := "CONTEXT FOR YOUR ANSWER:\n\n"
  let s1 := if st.global_community.isEmpty then base
    else base ++ "## Overall Topic Summaries\n"
      ++ String.intercalate "\n" st.global_community ++ "\n\n"
  let s2 := if st.local_graph.isEmpty then s1
    else s1 ++ "## Specific Entity Relationships\n"
      ++ String.intercalate "\n\n" st.local_graph ++ "\n\n"
  if st.source_text.isEmpty then s2
  else s2 ++ "## Grounding Source Text from Original Reviews\n"
    ++ String.intercalate "\n\n" st.source_text

/-- The list comprehension `[faiss_node_ids[i] for i in indices[0]]`
(query_engine.py line 40), evaluated left to right; the first out-of-range
index raises (`none`). -/
def pyGetAll (ids : List String) : List Int → Option (List String)
  | [] => some []
  | i :: rest =>
    match pyGet ids i, pyGetAll ids rest with
    | some v, some vs => some (v :: vs)
    | _, _ => none

/-- The entry-point `for` loop of step 2 (query_engine.py lines 48-78): thread
the state through `process_entry`, an uncaught exception aborting the run. -/
def runEntries (G : Graph) (summaries : List (Nat × String)) (fs : String → Option String) :
    RetState → List String → Option RetState
  | st, [] => some st
  | st, id :: rest =>
    match process_entry G summaries fs st id with
    | none => none
    | some st' => runEntries G summaries fs st' rest

/-- `retrieve_and_build_context` (query_engine.py lines 22-89), with the query
embedder and the faiss search as parameters.  A failed query embedding is
caught and returns the empty string (lines 35-37).  The search result row
`indices[0]` is mapped through Python indexing of the id list (line 40,
no bounds or sentinel check); an `IndexError` there, or a `KeyError` in the
loop, is uncaught (`none`). -/
def retrieve_and_build_context {Vec : Type} (embedQuery : String → Except String Vec)
    (search : FaissIndex Vec → Vec → Nat → List Int) (query : String) (G : Graph)
    (faiss_index : FaissIndex Vec) (faiss_node_ids : List String)
    (summaries : List (Nat × String)) (fs : String → Option String)
    (top_k : Nat) : Option String :=
  match embedQuery query with
  | .error _ => some ""
  | .ok qv =>
    match pyGetAll faiss_node_ids (search faiss_index qv top_k) with
    | none => none
    | some entry_point_node_ids =>
      match runEntries G summaries fs initState entry_point_node_ids with
      | none => none
      | some st => some (assembleContext st)

def missingIndexMsg : String :=
  "Could not find the necessary index files. Please build the index first."

def notFoundMsg : String :=
  "I couldn't find any relevant information in the knowledge graph to answer your question."

def genErrorMsg (e : String) : String :=
  "An error occurred while generating the answer: " ++ e

/-- The generation prompt of `answer_query_with_graph` (query_engine.py lines
113-125). -/
def answerPrompt (context_text query : String) : String :=
  "You are an AI assistant for a product manager. Your task is to answer questions based on a knowledge graph built from user reviews.\nUse the provided context, which includes global summaries, local entity relationships, and original review text, to synthesize a comprehensive and actionable answer.\nDo not mention the internal mechanics (e.g., \"based on the community summary\"). Answer the question directly and professionally.\n\n"
    ++ context_text ++ "\n---\n\nUSER'S QUESTION:\n\"" ++ query ++ "\"\n\nANSWER:\n"

/-- `answer_query_with_graph` (query_engine.py lines 91-130): loading failure
of the four artifacts returns the explicit build-first message; an empty
retrieved context returns the nothing-relevant-found message WITHOUT calling
the generation backend; otherwise one generation call, whose failure is caught
and rendered as an error-described string.  `none` models an uncaught
exception escaping the retrieval step. -/
def answer_query_with_graph {Vec : Type} (embedQuery : String → Except String Vec)
    (search : FaissIndex Vec → Vec → Nat → List Int)
    (generate : String → Except String String) (artifacts : Option (Artifacts Vec))
    (fs : String → Option String) (query : String) : Option String :=
  match artifacts with
  | none => some missingIndexMsg
  | some a =>
    match retrieve_and_build_context embedQuery search query a.graph a.faiss_index
        a.faiss_node_ids a.community_summaries fs 5 with
    | none => none
    | some context_text =>
      if context_text = "" then some notFoundMsg
      else
        match generate (answerPrompt context_text query) with
        | .ok t => some t
        | .error e => some (genErrorMsg e)

/-- Whether the character list starts with the given character list. -/
def startsWithChars : List Char → List Char → Bool
  | _, [] => true
  | [], _ :: _ => false
  | c :: cs, d :: ds => c == d && startsWithChars cs ds

/-- Substring test used to state containment facts about the strings the
engine assembles: `sub` occurs contiguously inside `s`. -/
def strContains (s sub : String) : Bool :=
  s.data.tails.any (fun t => startsWithChars t sub.data)

/-!
Concrete data used by counterexamples and witnesses: a small corpus of two
reviews yielding a bug entity `a` linked to a component entity `b` (one
directed edge `a → b`) plus an isolated feature-request entity `c`, with the
backends instantiated at `Vec := Nat` (each value embedded to its length).
`Gex` is exactly the tagged graph the build produces on this corpus.
-/

def bugData : NodeData := ⟨some "BUG_REPORT", some "Crash on open", some "review_1.txt", some 0⟩

def playlistData : NodeData :=
  ⟨some "PRODUCT_COMPONENT", some "Playlist", some "review_1.txt", some 0⟩

def darkModeData : NodeData :=
  ⟨some "FEATURE_REQUEST", some "Dark mode", some "review_2.txt", some 1⟩

def Gex : Graph :=
  ⟨[("a", bugData), ("b", playlistData), ("c", darkModeData)], [("a", "b", "related_to")]⟩

def sumsEx : List (Nat × String) := [(0, "Crashes around the playlist"), (1, "Dark mode wishes")]

def fsEx : String → Option String := fun n =>
  if n = "review_1.txt" then some "review one text"
  else if n = "review_2.txt" then some "review two text"
  else none

def faissEx : FaissIndex Nat := ⟨[13, 8, 9]⟩

def idsEx : List String := ["a", "b", "c"]

def artEx : Artifacts Nat := ⟨Gex, sumsEx, faissEx, idsEx⟩

def embedOk : String → Except String Nat := fun _ => .ok 0

def embedFail : String → Except String Nat := fun _ => .error "boom"

def searchEmpty : FaissIndex Nat → Nat → Nat → List Int := fun _ _ _ => []

def searchB : FaissIndex Nat → Nat → Nat → List Int := fun _ _ _ => [1]

def genA : String → Except String String := fun _ => .ok "GENERATED"

def genB : String → Except String String := fun _ => .ok "OTHER"

def detectEx : Graph → List (Finset String) := fun _ => [{"a", "b"}, {"c"}]

def extractEx : String → Option ExtractedData := fun t =>
  if t = "review one text" then
    some ⟨[⟨"a", "BUG_REPORT", "Crash on open"⟩, ⟨"b", "PRODUCT_COMPONENT", "Playlist"⟩],
          [⟨"a", "b", "related_to"⟩]⟩
  else if t = "review two text" then
    some ⟨[⟨"c", "FEATURE_REQUEST", "Dark mode"⟩], [⟨"c", "zzz", "related_to"⟩]⟩
  else none

def reviewsEx : List (String × String) :=
  [("review_1.txt", "review one text"), ("review_2.txt", "review two text")]

def summarizeEx : String → Option String := fun _ => some "Theme sentence."

def embedBatchEx : List String → Option (List Nat) := fun vs => some (vs.map String.length)

def aEx : Artifacts Nat :=
  ⟨Gex, [(0, "Theme sentence."), (1, "Theme sentence.")], faissEx, idsEx⟩

/-- The loop state after processing entry points `["a", "b"]` of `Gex` (both
share community 0 and source file review_1.txt). -/
def stABex : RetState :=
  ⟨["Entity 'Crash on open' (Type: BUG_REPORT) is related to:\n  - 'Playlist' (Type: PRODUCT_COMPONENT)",
    "Entity 'Playlist' (Type: PRODUCT_COMPONENT) is related to:\n  - No direct relationships found."],
   ["This topic belongs to a community summarized as: 'Crashes around the playlist'"],
   ["--- START OF RELEVANT REVIEW (review_1.txt) ---\nreview one text\n--- END OF REVIEW ---"],
   {0}, {"review_1.txt"}⟩

example : nodeIds (add_node emptyGraph "a" "T" "v" "f.txt") = ["a"] := by decide

example :
    (add_relationship (add_node emptyGraph "a" "T" "v" "f.txt") "a" "b" "related_to").edges
      = [] := by decide

example :
    (add_relationship (add_node (add_node emptyGraph "a" "T" "v" "f.txt") "b" "T" "w" "f.txt")
      "a" "b" "related_to").edges = [("a", "b", "related_to")] := by decide

/-! Helper lemmas about the graph store. -/

lemma lookupNode_isSome_iff (G : Graph) (id : String) :
    (lookupNode G id).isSome ↔ id ∈ nodeIds G := by
  simp only [lookupNode, Option.isSome_map', List.find?_isSome, nodeIds, List.mem_map,
    decide_eq_true_eq]

lemma find?_update_snd (l : List (String × NodeData)) (id : String)
    (upd : NodeData → NodeData) :
    (((l.map (fun p => if p.1 = id then (p.1, upd p.2) else p)).find?
        (fun p => p.1 = id)).map Prod.snd)
      = ((l.find? (fun p => p.1 = id)).map Prod.snd).map upd := by
  induction l with
  | nil => simp
  | cons p rest ih =>
    by_cases h : p.1 = id
    · simp [List.find?_cons, h]
    · simpa [List.find?_cons, h] using ih

lemma find?_none_of_not_mem (l : List (String × NodeData)) (id : String)
    (h : id ∉ l.map Prod.fst) : l.find? (fun p => p.1 = id) = none := by
  rw [List.find?_eq_none]
  intro p hp hpid
  have hid : p.1 = id := of_decide_eq_true hpid
  exact h (hid ▸ List.mem_map_of_mem Prod.fst hp)

/-- What `add_node` leaves under the id it touched: the given attributes, the
previous `community_id` when the id already existed. -/
lemma lookupNode_add_node_self (G : Graph) (id ty v sf : String) :
    lookupNode (add_node G id ty v sf) id
      = some (match lookupNode G id with
              | some d => { d with type := some ty, value := some v, source_file := some sf }
              | none => ⟨some ty, some v, some sf, none⟩) := by
  by_cases hmem : id ∈ nodeIds G
  · have hs : (lookupNode G id).isSome := (lookupNode_isSome_iff G id).mpr hmem
    obtain ⟨d, hd⟩ := Option.isSome_iff_exists.mp hs
    unfold add_node
    rw [if_pos hmem]
    show (((G.nodes.map _).find? _).map Prod.snd) = _
    rw [find?_update_snd G.nodes id
      (fun d => { d with type := some ty, value := some v, source_file := some sf })]
    have : (G.nodes.find? (fun p => p.1 = id)).map Prod.snd = lookupNode G id := rfl
    rw [this, hd]
    rfl
  · unfold add_node
    rw [if_neg hmem]
    have hnone : G.nodes.find? (fun p => decide (p.1 = id)) = none :=
      find?_none_of_not_mem G.nodes id hmem
    have hlook : lookupNode G id = none := by
      simp [lookupNode, hnone]
    show (((G.nodes ++ [(id, (⟨some ty, some v, some sf, none⟩ : NodeData))]).find? _).map
      Prod.snd) = _
    rw [List.find?_append, hnone, hlook]
    simp

/-! ## C4 -/

/-- C4: inserting an extracted relationship whose source or target id is not a
node is a silent no-op — the graph (in particular its edge list) is returned
unchanged, with no error and no partial insertion. -/
theorem c4_dangling_relationship_noop (G : Graph) (src tgt ty : String)
    (h : src ∉ nodeIds G ∨ tgt ∉ nodeIds G) :
    add_relationship G src tgt ty = G := by
  unfold add_relationship
  rw [if_neg]
  tauto

theorem c4_witness :
    ("zzz" ∉ nodeIds Gex ∨ "b" ∉ nodeIds Gex)
      ∧ add_relationship Gex "zzz" "b" "related_to" = Gex :=
  ⟨Or.inl (by decide),
   c4_dangling_relationship_noop Gex "zzz" "b" "related_to" (Or.inl (by decide))⟩

/-! ## C7 -/

/-- C7 counterexample: adding the same id "x" first from "first.txt" and then
from "second.txt" leaves `source_file = "second.txt"` — the LAST writer's
source file, not the first's as the claim states. -/
theorem c7_counterexample :
    (lookupNode (add_node (add_node emptyGraph "x" "T1" "v1" "first.txt")
        "x" "T2" "v2" "second.txt") "x").map NodeData.source_file
      = some (some "second.txt")
    ∧ (some (some "second.txt") : Option (Option String)) ≠ some (some "first.txt") := by
  constructor
  · decide
  · decide

/-- C7 amended: when the same entity id is added more than once, the
attributes retained are those of the LAST add — `add_node` always leaves the
given `type`, `value` and `source_file` under the id, overwriting whatever an
earlier add stored. -/
theorem c7_last_writer_wins (G : Graph) (id ty v sf : String) :
    ∃ d, lookupNode (add_node G id ty v sf) id = some d
      ∧ d.type = some ty ∧ d.value = some v ∧ d.source_file = some sf := by
  rw [lookupNode_add_node_self]
  refine ⟨_, rfl, ?_, ?_, ?_⟩ <;> cases lookupNode G id <;> rfl

/-! ## C10 -/

lemma pyGet_neg_one (ids : List String) (h : ids ≠ []) :
    pyGet ids (-1) = some (ids.getLast h) := by
  have hlen : 1 ≤ ids.length := List.length_pos.mpr h
  unfold pyGet
  rw [if_pos (by norm_num : (-1 : Int) < 0),
    if_pos (by omega : (0 : Int) ≤ (ids.length : Int) + (-1))]
  have htn : ((ids.length : Int) + (-1)).toNat = ids.length - 1 := by omega
  rw [htn, List.getLast_eq_get]
  exact List.get?_eq_get _

lemma pyGet_inrange (ids : List String) (i : Int) (h0 : 0 ≤ i)
    (hlt : i < (ids.length : Int)) : ∃ v, pyGet ids i = some v := by
  unfold pyGet
  rw [if_neg (by omega : ¬ i < 0), if_pos h0]
  have hlt' : i.toNat < ids.length := by omega
  exact ⟨ids.get ⟨i.toNat, hlt'⟩, List.get?_eq_get hlt'⟩

/-- C10: mapping nearest-neighbor result positions through Python indexing of
the id array does no bounds or sentinel check: when the index holds fewer than
`topK` embeddings, faiss pads `indices[0]` with `-1`, and each `-1` selects
the LAST element of the id array via negative indexing — the mapping succeeds
with one entry per search position (nothing skipped, no error) and the final
entity appears as a (possibly repeated) entry point. -/
theorem c10_padding_selects_last (faiss_node_ids : List String) (indices : List Int)
    (hne : faiss_node_ids ≠ [])
    (hpad : ∀ i ∈ indices, i = -1 ∨ (0 ≤ i ∧ i < (faiss_node_ids.length : Int))) :
    ∃ entry_points, pyGetAll faiss_node_ids indices = some entry_points
      ∧ entry_points.length = indices.length
      ∧ (∀ pos (h1 : pos < indices.length) (h2 : pos < entry_points.length),
          indices.get ⟨pos, h1⟩ = -1 →
            entry_points.get ⟨pos, h2⟩ = faiss_node_ids.getLast hne)
      ∧ ((-1 : Int) ∈ indices → faiss_node_ids.getLast hne ∈ entry_points) := by
  induction indices with
  | nil =>
    refine ⟨[], rfl, rfl, ?_, by simp⟩
    intro pos h1
    exact absurd h1 (Nat.not_lt_zero pos)
  | cons i rest ih =>
    obtain ⟨eps, heps, hlen, hmaps, hmem⟩ :=
      ih (fun j hj => hpad j (List.mem_cons_of_mem _ hj))
    have hv : ∃ v, pyGet faiss_node_ids i = some v := by
      rcases hpad i (List.mem_cons_self _ _) with h | ⟨h0, hlt⟩
      · exact ⟨_, h ▸ pyGet_neg_one faiss_node_ids hne⟩
      · exact pyGet_inrange faiss_node_ids i h0 hlt
    obtain ⟨v, hv⟩ := hv
    refine ⟨v :: eps, ?_, by simp [hlen], ?_, ?_⟩
    · unfold pyGetAll
      rw [hv, heps]
    · intro pos h1 h2 hneg
      cases pos with
      | zero =>
        simp only [List.get] at hneg ⊢
        rw [hneg, pyGet_neg_one faiss_node_ids hne] at hv
        exact (Option.some_inj.mp hv).symm
      | succ p =>
        exact hmaps p (by simpa using h1) (by simpa using h2) (by simpa using hneg)
    · intro hin
      rcases List.mem_cons.mp hin with h | h
      · have := h ▸ hv
        rw [pyGet_neg_one faiss_node_ids hne] at this
        rw [← Option.some_inj.mp this]
        exact List.mem_cons_self _ _
      · exact List.mem_cons_of_mem _ (hmem h)

theorem c10_witness :
    idsEx ≠ []
    ∧ (∀ i ∈ ([0, 2, -1, -1, -1] : List Int), i = -1 ∨ (0 ≤ i ∧ i < (idsEx.length : Int)))
    ∧ ∃ entry_points, pyGetAll idsEx [0, 2, -1, -1, -1] = some entry_points
      ∧ entry_points.length = ([0, 2, -1, -1, -1] : List Int).length
      ∧ (∀ pos (h1 : pos < ([0, 2, -1, -1, -1] : List Int).length)
            (h2 : pos < entry_points.length),
          ([0, 2, -1, -1, -1] : List Int).get ⟨pos, h1⟩ = -1 →
            entry_points.get ⟨pos, h2⟩ = idsEx.getLast (by decide))
      ∧ ((-1 : Int) ∈ ([0, 2, -1, -1, -1] : List Int) →
          idsEx.getLast (by decide) ∈ entry_points) :=
  ⟨by decide, by decide,
   c10_padding_selects_last idsEx [0, 2, -1, -1, -1] (by decide) (by decide)⟩

/-! ## C1 -/

/-- C1 counterexample: on a search that yields no entry points at all, the
retrieval does NOT return the empty string — it returns the bare header
`"CONTEXT FOR YOUR ANSWER:\n\n"` — and the caller does NOT surface the
nothing-relevant-found message: it calls the generation backend (two backends
that answer differently produce different final answers). -/
theorem c1_counterexample :
    retrieve_and_build_context embedOk searchEmpty "q" Gex faissEx idsEx sumsEx fsEx 5
      = some "CONTEXT FOR YOUR ANSWER:\n\n"
    ∧ "CONTEXT FOR YOUR ANSWER:\n\n" ≠ ""
    ∧ answer_query_with_graph embedOk searchEmpty genA (some artEx) fsEx "q"
        = some "GENERATED"
    ∧ answer_query_with_graph embedOk searchEmpty genB (some artEx) fsEx "q"
        = some "OTHER"
    ∧ "GENERATED" ≠ notFoundMsg := by
  refine ⟨by decide, by decide, by decide, by decide, by decide⟩

/-- C1 amended: when the query embeds successfully and the nearest-neighbor
search yields no entry points, `retrieve_and_build_context` returns the fixed
NON-empty header string (not the empty string), so `answer_query_with_graph`
does not produce the nothing-relevant-found message and instead issues the
generation-backend call on the entity-free context. -/
theorem c1_empty_search_still_generates {Vec : Type}
    (embedQuery : String → Except String Vec)
    (search : FaissIndex Vec → Vec → Nat → List Int)
    (generate : String → Except String String) (a : Artifacts Vec)
    (fs : String → Option String) (query : String) (qv : Vec)
    (hok : embedQuery query = .ok qv)
    (hempty : search a.faiss_index qv 5 = []) :
    retrieve_and_build_context embedQuery search query a.graph a.faiss_index
        a.faiss_node_ids a.community_summaries fs 5
      = some "CONTEXT FOR YOUR ANSWER:\n\n"
    ∧ answer_query_with_graph embedQuery search generate (some a) fs query
        = match generate (answerPrompt "CONTEXT FOR YOUR ANSWER:\n\n" query) with
          | .ok t => some t
          | .error e => some (genErrorMsg e) := by
  have hret : retrieve_and_build_context embedQuery search query a.graph a.faiss_index
      a.faiss_node_ids a.community_summaries fs 5 = some "CONTEXT FOR YOUR ANSWER:\n\n" := by
    simp only [retrieve_and_build_context, hok, hempty]
    rfl
  refine ⟨hret, ?_⟩
  simp only [answer_query_with_graph, hret]
  rw [if_neg (by decide : ¬ ("CONTEXT FOR YOUR ANSWER:\n\n" = ""))]

theorem c1_witness :
    retrieve_and_build_context embedOk searchEmpty "q" artEx.graph artEx.faiss_index
        artEx.faiss_node_ids artEx.community_summaries fsEx 5
      = some "CONTEXT FOR YOUR ANSWER:\n\n"
    ∧ answer_query_with_graph embedOk searchEmpty genA (some artEx) fsEx "q"
        = match genA (answerPrompt "CONTEXT FOR YOUR ANSWER:\n\n" "q") with
          | .ok t => some t
          | .error e => some (genErrorMsg e) :=
  c1_empty_search_still_generates embedOk searchEmpty genA artEx fsEx "q" 0 rfl rfl

/-! ## C9 -/

/-- C9 counterexample: when embedding the query fails (error "boom"), the
answer path does NOT return an error-described answer string: it returns the
fixed nothing-relevant-found message, which does not mention the error and
differs from the error-describing format used for generation failures. -/
theorem c9_counterexample :
    answer_query_with_graph embedFail searchEmpty genA (some artEx) fsEx "q"
      = some notFoundMsg
    ∧ strContains notFoundMsg "boom" = false
    ∧ notFoundMsg ≠ genErrorMsg "boom" := by
  refine ⟨by decide, by decide, by decide⟩

/-- C9 amended: a query-embedding failure is caught and non-fatal — the
retrieval returns the empty string and the answer path returns the fixed
nothing-relevant-found message (the same string as the empty-context path,
independent of the error and of the generation backend, which is never
called); no exception escapes, so the interactive loop can continue. -/
theorem c9_embed_failure_returns_not_found {Vec : Type}
    (embedQuery : String → Except String Vec)
    (search : FaissIndex Vec → Vec → Nat → List Int)
    (generate : String → Except String String) (a : Artifacts Vec)
    (fs : String → Option String) (query e : String)
    (herr : embedQuery query = .error e) :
    retrieve_and_build_context embedQuery search query a.graph a.faiss_index
        a.faiss_node_ids a.community_summaries fs 5 = some ""
    ∧ answer_query_with_graph embedQuery search generate (some a) fs query
        = some notFoundMsg := by
  have hret : retrieve_and_build_context embedQuery search query a.graph a.faiss_index
      a.faiss_node_ids a.community_summaries fs 5 = some "" := by
    simp only [retrieve_and_build_context, herr]
  refine ⟨hret, ?_⟩
  simp only [answer_query_with_graph, hret]
  simp

theorem c9_witness :
    retrieve_and_build_context embedFail searchEmpty "q" artEx.graph artEx.faiss_index
        artEx.faiss_node_ids artEx.community_summaries fsEx 5 = some ""
    ∧ answer_query_with_graph embedFail searchEmpty genA (some artEx) fsEx "q"
        = some notFoundMsg :=
  c9_embed_failure_returns_not_found embedFail searchEmpty genA artEx fsEx "q" "boom" rfl

/-! ## C2 -/

lemma mem_successors_aux (id v : String) (l : List (String × String × String)) :
    ∀ acc : List String,
      v ∈ l.foldl (fun acc e => if e.1 = id ∧ e.2.1 ∉ acc then acc ++ [e.2.1] else acc) acc
        ↔ v ∈ acc ∨ ∃ t, (id, v, t) ∈ l := by
  induction l with
  | nil => intro acc; simp
  | cons e rest ih =>
    obtain ⟨a, b, c⟩ := e
    intro acc
    rw [List.foldl_cons]
    by_cases h : a = id ∧ b ∉ acc
    · rw [if_pos h, ih]
      obtain ⟨ha, hb⟩ := h
      subst ha
      constructor
      · rintro (hv | ⟨t, ht⟩)
        · rcases List.mem_append.mp hv with hv | hv
          · exact Or.inl hv
          · rcases List.mem_singleton.mp hv with rfl
            exact Or.inr ⟨c, List.mem_cons_self _ _⟩
        · exact Or.inr ⟨t, List.mem_cons_of_mem _ ht⟩
      · rintro (hv | ⟨t, ht⟩)
        · exact Or.inl (List.mem_append_left _ hv)
        · rcases List.mem_cons.mp ht with heq | hrest
          · simp only [Prod.mk.injEq] at heq
            obtain ⟨-, hv, -⟩ := heq
            subst hv
            exact Or.inl (List.mem_append_right _ (List.mem_singleton_self _))
          · exact Or.inr ⟨t, hrest⟩
    · rw [if_neg h, ih]
      push_neg at h
      constructor
      · rintro (hv | ⟨t, ht⟩)
        · exact Or.inl hv
        · exact Or.inr ⟨t, List.mem_cons_of_mem _ ht⟩
      · rintro (hv | ⟨t, ht⟩)
        · exact Or.inl hv
        · rcases List.mem_cons.mp ht with heq | hrest
          · simp only [Prod.mk.injEq] at heq
            obtain ⟨ha, hv, -⟩ := heq
            exact Or.inl (hv ▸ h ha.symm)
          · exact Or.inr ⟨t, hrest⟩

/-- `v` is listed among the neighbors the query engine walks from `id` exactly
when some edge runs FROM `id` TO `v`: `G.neighbors` on the directed multigraph
yields successors only. -/
lemma mem_successors (G : Graph) (id v : String) :
    v ∈ successors G id ↔ ∃ t, (id, v, t) ∈ G.edges := by
  rw [successors, mem_successors_aux id v G.edges []]
  simp

lemma neighborLines_mem (G : Graph) (l : List String) (lines : List String)
    (h : neighborLines G l = some lines) :
    ∀ v ∈ l, ∃ d, lookupNode G v = some d ∧ neighborLine d ∈ lines := by
  induction l generalizing lines with
  | nil => intro v hv; exact absurd hv (List.not_mem_nil v)
  | cons nid rest ih =>
    intro v hv
    unfold neighborLines at h
    cases hl : lookupNode G nid with
    | none => rw [hl] at h; exact absurd h (by simp)
    | some d =>
      rw [hl] at h
      cases hr : neighborLines G rest with
      | none => rw [hr] at h; exact absurd h (by simp)
      | some ls =>
        rw [hr] at h
        simp only [Option.some_inj] at h
        subst h
        rcases List.mem_cons.mp hv with rfl | hv'
        · exact ⟨d, hl, List.mem_cons_self _ _⟩
        · obtain ⟨d', hd', hmem⟩ := ih ls hr v hv'
          exact ⟨d', hd', List.mem_cons_of_mem _ hmem⟩

lemma neighborLines_nil_iff (G : Graph) (l : List String) (lines : List String)
    (h : neighborLines G l = some lines) : lines = [] ↔ l = [] := by
  cases l with
  | nil => simp only [neighborLines] at h; simp [← Option.some_inj.mp h]
  | cons nid rest =>
    unfold neighborLines at h
    cases hl : lookupNode G nid with
    | none => rw [hl] at h; exact absurd h (by simp)
    | some d =>
      rw [hl] at h
      cases hr : neighborLines G rest with
      | none => rw [hr] at h; exact absurd h (by simp)
      | some ls =>
        rw [hr] at h
        simp [← Option.some_inj.mp h]

/-- C2 counterexample: in `Gex` the only edge runs `a → b`, so `a` IS an
undirected neighbor of `b` — yet processing entry point `b` emits the
no-relationships placeholder fragment, which does not contain the neighbor's
value "Crash on open" at all (successors-only lookup, not undirected). -/
theorem c2_counterexample :
    adjU Gex "b" "a"
    ∧ (lookupNode Gex "a").map NodeData.value = some (some "Crash on open")
    ∧ (process_entry Gex sumsEx fsEx initState "b").map RetState.local_graph
        = some ["Entity 'Playlist' (Type: PRODUCT_COMPONENT) is related to:\n  - No direct relationships found."]
    ∧ strContains "Entity 'Playlist' (Type: PRODUCT_COMPONENT) is related to:\n  - No direct relationships found." "Crash on open" = false := by
  refine ⟨⟨"related_to", Or.inr (by decide)⟩, by decide, by decide, by decide⟩

lemma stepCommunity_local_graph (summaries : List (Nat × String)) (st : RetState)
    (o : Option Nat) : (stepCommunity summaries st o).local_graph = st.local_graph := by
  cases o with
  | none => rfl
  | some cid =>
    unfold stepCommunity
    repeat' split
    all_goals rfl

lemma stepCommunity_source_text (summaries : List (Nat × String)) (st : RetState)
    (o : Option Nat) : (stepCommunity summaries st o).source_text = st.source_text := by
  cases o with
  | none => rfl
  | some cid =>
    unfold stepCommunity
    repeat' split
    all_goals rfl

lemma stepCommunity_seen_source_files (summaries : List (Nat × String)) (st : RetState)
    (o : Option Nat) :
    (stepCommunity summaries st o).seen_source_files = st.seen_source_files := by
  cases o with
  | none => rfl
  | some cid =>
    unfold stepCommunity
    repeat' split
    all_goals rfl

lemma stepSource_local_graph (fs : String → Option String) (st : RetState)
    (o : Option String) : (stepSource fs st o).local_graph = st.local_graph := by
  cases o with
  | none => rfl
  | some sf =>
    unfold stepSource
    repeat' split
    all_goals rfl

lemma stepSource_global_community (fs : String → Option String) (st : RetState)
    (o : Option String) : (stepSource fs st o).global_community = st.global_community := by
  cases o with
  | none => rfl
  | some sf =>
    unfold stepSource
    repeat' split
    all_goals rfl

lemma stepSource_seen_communities (fs : String → Option String) (st : RetState)
    (o : Option String) : (stepSource fs st o).seen_communities = st.seen_communities := by
  cases o with
  | none => rfl
  | some sf =>
    unfold stepSource
    repeat' split
    all_goals rfl

lemma process_entry_local_graph (G : Graph) (summaries : List (Nat × String))
    (fs : String → Option String) (st : RetState) (node_id : String) (nd : NodeData)
    (ninfo : List String) (hlook : lookupNode G node_id = some nd)
    (hninfo : neighborsInfo G node_id = some ninfo) :
    (process_entry G summaries fs st node_id).map RetState.local_graph
      = some (st.local_graph ++ [entityHeader nd ++ "\n"
          ++ String.intercalate "\n" (if ninfo.isEmpty then [noRelLine] else ninfo)]) := by
  simp only [process_entry, hlook, hninfo, Option.map_some']
  rw [stepSource_local_graph, stepCommunity_local_graph]

/-- C2 amended: the fragment emitted for an entry-point entity lists exactly
the entity's OUT-neighbors (successors): a line per target of an out-edge of
the entity (each line carrying that neighbor's value and type), and the
no-relationships placeholder exactly when the entity has no out-edges —
undirected neighbors reachable only through incoming edges are omitted. -/
theorem c2_fragment_lists_successors (G : Graph) (summaries : List (Nat × String))
    (fs : String → Option String) (st : RetState) (node_id : String) (nd : NodeData)
    (ninfo : List String) (hlook : lookupNode G node_id = some nd)
    (hninfo : neighborsInfo G node_id = some ninfo) :
    (process_entry G summaries fs st node_id).map RetState.local_graph
      = some (st.local_graph ++ [entityHeader nd ++ "\n"
          ++ String.intercalate "\n" (if ninfo.isEmpty then [noRelLine] else ninfo)])
    ∧ (∀ v, v ∈ successors G node_id ↔ ∃ t, (node_id, v, t) ∈ G.edges)
    ∧ (∀ v, v ∈ successors G node_id →
        ∃ d, lookupNode G v = some d ∧ neighborLine d ∈ ninfo)
    ∧ (ninfo = [] ↔ ∀ v t, (node_id, v, t) ∉ G.edges) := by
  refine ⟨process_entry_local_graph G summaries fs st node_id nd ninfo hlook hninfo,
    fun v => mem_successors G node_id v, ?_, ?_⟩
  · intro v hv
    exact neighborLines_mem G (successors G node_id) ninfo hninfo v hv
  · rw [neighborLines_nil_iff G (successors G node_id) ninfo hninfo]
    rw [List.eq_nil_iff_forall_not_mem]
    constructor
    · intro hall v t hmem
      exact hall v ((mem_successors G node_id v).mpr ⟨t, hmem⟩)
    · intro hall v hv
      obtain ⟨t, ht⟩ := (mem_successors G node_id v).mp hv
      exact hall v t ht

theorem c2_witness :
    (lookupNode Gex "a" = some bugData)
    ∧ (neighborsInfo Gex "a" = some ["  - 'Playlist' (Type: PRODUCT_COMPONENT)"])
    ∧ ((process_entry Gex sumsEx fsEx initState "a").map RetState.local_graph
        = some (initState.local_graph ++ [entityHeader bugData ++ "\n"
            ++ String.intercalate "\n"
              (if (["  - 'Playlist' (Type: PRODUCT_COMPONENT)"] : List String).isEmpty
               then [noRelLine] else ["  - 'Playlist' (Type: PRODUCT_COMPONENT)"])])
      ∧ (∀ v, v ∈ successors Gex "a" ↔ ∃ t, ("a", v, t) ∈ Gex.edges)
      ∧ (∀ v, v ∈ successors Gex "a" →
          ∃ d, lookupNode Gex v = some d
            ∧ neighborLine d ∈ (["  - 'Playlist' (Type: PRODUCT_COMPONENT)"] : List String))
      ∧ ((["  - 'Playlist' (Type: PRODUCT_COMPONENT)"] : List String) = []
          ↔ ∀ v t, ("a", v, t) ∉ Gex.edges)) :=
  ⟨by decide, by decide,
   c2_fragment_lists_successors Gex sumsEx fsEx initState "a" bugData
     ["  - 'Playlist' (Type: PRODUCT_COMPONENT)"] (by decide) (by decide)⟩

/-! ## C6 -/

lemma stepCommunity_inv (summaries : List (Nat × String)) (st : RetState) (o : Option Nat)
    (cids : List Nat) (hn : cids.Nodup)
    (hg : st.global_community = cids.map (communityLine summaries))
    (hs : cids.toFinset = st.seen_communities) :
    ∃ cids' : List Nat, cids'.Nodup
      ∧ (stepCommunity summaries st o).global_community = cids'.map (communityLine summaries)
      ∧ cids'.toFinset = (stepCommunity summaries st o).seen_communities := by
  cases o with
  | none => exact ⟨cids, hn, hg, hs⟩
  | some cid =>
    by_cases hmem : cid ∉ st.seen_communities
    · have hnotin : cid ∉ cids := by
        intro hc
        exact hmem (hs ▸ List.mem_toFinset.mpr hc)
      refine ⟨cids ++ [cid], ?_, ?_, ?_⟩
      · simp [List.nodup_append, hn, hnotin]
      · simp [stepCommunity, if_pos hmem, hg]
      · simp only [stepCommunity, if_pos hmem, List.toFinset_append]
        rw [← hs]
        ext x
        simp [or_comm]
    · refine ⟨cids, hn, ?_, ?_⟩ <;> simp [stepCommunity, if_neg hmem, hg, hs]

lemma stepSource_inv (fs : String → Option String) (st : RetState) (o : Option String)
    (files : List String) (hn : files.Nodup)
    (hsrc : st.source_text = files.map (fun f => sourceFragment f ((fs f).getD "")))
    (hsome : ∀ f ∈ files, (fs f).isSome)
    (hs : files.toFinset = st.seen_source_files) :
    ∃ files' : List String, files'.Nodup
      ∧ (stepSource fs st o).source_text
          = files'.map (fun f => sourceFragment f ((fs f).getD ""))
      ∧ (∀ f ∈ files', (fs f).isSome)
      ∧ files'.toFinset = (stepSource fs st o).seen_source_files := by
  cases o with
  | none => exact ⟨files, hn, hsrc, hsome, hs⟩
  | some sf =>
    by_cases hcond : sf ≠ "" ∧ sf ∉ st.seen_source_files
    · cases hf : fs sf with
      | none =>
        refine ⟨files, hn, ?_, hsome, ?_⟩ <;>
          simp [stepSource, if_pos hcond, hf, hsrc, hs]
      | some text =>
        have hnotin : sf ∉ files := by
          intro hc
          exact hcond.2 (hs ▸ List.mem_toFinset.mpr hc)
        refine ⟨files ++ [sf], ?_, ?_, ?_, ?_⟩
        · simp [List.nodup_append, hn, hnotin]
        · simp only [stepSource, if_pos hcond, hf, List.map_append, List.map_cons,
            List.map_nil, hsrc]
          rfl
        · intro f hf'
          rcases List.mem_append.mp hf' with h | h
          · exact hsome f h
          · rcases List.mem_singleton.mp h with rfl
            rw [hf]; rfl
        · simp only [stepSource, if_pos hcond, hf, List.toFinset_append]
          rw [← hs]
          ext x
          simp [or_comm]
    · refine ⟨files, hn, ?_, hsome, ?_⟩ <;> simp [stepSource, if_neg hcond, hsrc, hs]

lemma runEntries_dedup_aux (G : Graph) (summaries : List (Nat × String))
    (fs : String → Option String) :
    ∀ (entries : List String) (st st' : RetState) (cids : List Nat) (files : List String),
      runEntries G summaries fs st entries = some st' →
      cids.Nodup → files.Nodup →
      st.global_community = cids.map (communityLine summaries) →
      st.source_text = files.map (fun f => sourceFragment f ((fs f).getD "")) →
      (∀ f ∈ files, (fs f).isSome) →
      cids.toFinset = st.seen_communities →
      files.toFinset = st.seen_source_files →
      ∃ (cids' : List Nat) (files' : List String), cids'.Nodup ∧ files'.Nodup
        ∧ st'.global_community = cids'.map (communityLine summaries)
        ∧ st'.source_text = files'.map (fun f => sourceFragment f ((fs f).getD ""))
        ∧ (∀ f ∈ files', (fs f).isSome)
        ∧ cids'.toFinset = st'.seen_communities
        ∧ files'.toFinset = st'.seen_source_files := by
  intro entries
  induction entries with
  | nil =>
    intro st st' cids files h hnc hnf hg hsrc hsome hseenc hseens
    have hst : st = st' := by
      simpa [runEntries] using h
    subst hst
    exact ⟨cids, files, hnc, hnf, hg, hsrc, hsome, hseenc, hseens⟩
  | cons id rest ih =>
    intro st st' cids files h hnc hnf hg hsrc hsome hseenc hseens
    cases hp : process_entry G summaries fs st id with
    | none => rw [runEntries, hp] at h; exact absurd h (by simp)
    | some stm =>
      rw [runEntries, hp] at h
      cases hl : lookupNode G id with
      | none => rw [process_entry, hl] at hp; exact absurd hp (by simp)
      | some nd =>
        cases hn : neighborsInfo G id with
        | none => rw [process_entry, hl, hn] at hp; exact absurd hp (by simp)
        | some ninfo =>
          rw [process_entry, hl, hn] at hp
          simp only [Option.some_inj] at hp
          obtain ⟨cids₂, hc2n, hc2g, hc2s⟩ :=
            stepCommunity_inv summaries
              { st with local_graph := st.local_graph ++ [entityHeader nd ++ "\n"
                  ++ String.intercalate "\n" (if ninfo.isEmpty then [noRelLine] else ninfo)] }
              nd.community_id cids hnc hg hseenc
          obtain ⟨files₂, hf2n, hf2src, hf2some, hf2s⟩ :=
            stepSource_inv fs
              (stepCommunity summaries
                { st with local_graph := st.local_graph ++ [entityHeader nd ++ "\n"
                    ++ String.intercalate "\n" (if ninfo.isEmpty then [noRelLine] else ninfo)] }
                nd.community_id)
              nd.source_file files hnf
              (by rw [stepCommunity_source_text]; exact hsrc) hsome
              (by rw [stepCommunity_seen_source_files]; exact hseens)
          refine ih stm st' cids₂ files₂ h hc2n hf2n ?_ ?_ hf2some ?_ ?_
          · rw [← hp, stepSource_global_community]; exact hc2g
          · rw [← hp]; exact hf2src
          · rw [← hp, stepSource_seen_communities]; exact hc2s
          · rw [← hp]; exact hf2s

/-- C6: within one retrieval, the community-context list holds exactly one
summary fragment per DISTINCT community id encountered (the ids backing the
fragments are pairwise distinct), and the source-text list exactly one
grounding excerpt per DISTINCT successfully-read source file — however many
entry-point entities share a community id or source file. -/
theorem c6_per_query_dedup (G : Graph) (summaries : List (Nat × String))
    (fs : String → Option String) (entries : List String) (st' : RetState)
    (h : runEntries G summaries fs initState entries = some st') :
    ∃ (cids : List Nat) (files : List String), cids.Nodup ∧ files.Nodup
      ∧ st'.global_community = cids.map (communityLine summaries)
      ∧ st'.source_text = files.map (fun f => sourceFragment f ((fs f).getD ""))
      ∧ (∀ f ∈ files, (fs f).isSome) := by
  obtain ⟨cids, files, h1, h2, h3, h4, h5, -, -⟩ :=
    runEntries_dedup_aux G summaries fs entries initState st' [] [] h
      List.nodup_nil List.nodup_nil rfl rfl (by intro f hf; exact absurd hf (List.not_mem_nil f))
      rfl rfl
  exact ⟨cids, files, h1, h2, h3, h4, h5⟩

theorem c6_witness :
    ∃ (cids : List Nat) (files : List String), cids.Nodup ∧ files.Nodup
      ∧ stABex.global_community = cids.map (communityLine sumsEx)
      ∧ stABex.source_text = files.map (fun f => sourceFragment f ((fsEx f).getD ""))
      ∧ (∀ f ∈ files, (fsEx f).isSome) :=
  c6_per_query_dedup Gex sumsEx fsEx ["a", "b"] stABex (by decide)

/-! ## Build invariants shared by C3 and C8: the node-id list stays duplicate-free
and every node stores a `value`, through every phase of the build. -/

lemma nodeIds_add_node (G : Graph) (id ty v sf : String) :
    nodeIds (add_node G id ty v sf)
      = if id ∈ nodeIds G then nodeIds G else nodeIds G ++ [id] := by
  by_cases h : id ∈ nodeIds G
  · rw [if_pos h]
    unfold add_node
    rw [if_pos h]
    show (G.nodes.map _).map Prod.fst = _
    rw [List.map_map]
    apply List.map_congr_left
    intro p _
    by_cases hp : p.1 = id <;> simp [hp]
  · rw [if_neg h]
    unfold add_node
    rw [if_neg h]
    simp [nodeIds]

lemma nodup_nodeIds_add_node (G : Graph) (id ty v sf : String)
    (h : (nodeIds G).Nodup) : (nodeIds (add_node G id ty v sf)).Nodup := by
  rw [nodeIds_add_node]
  by_cases hm : id ∈ nodeIds G
  · rwa [if_pos hm]
  · rw [if_neg hm]
    simp [List.nodup_append, h, hm]

lemma nodes_add_relationship (G : Graph) (src tgt ty : String) :
    (add_relationship G src tgt ty).nodes = G.nodes := by
  unfold add_relationship
  split <;> rfl

lemma nodes_foldl_add_relationship (rs : List Relationship) :
    ∀ G : Graph, (rs.foldl (fun g r => add_relationship g r.source r.target r.type) G).nodes
      = G.nodes := by
  induction rs with
  | nil => intro G; rfl
  | cons r rest ih =>
    intro G
    rw [List.foldl_cons, ih, nodes_add_relationship]

lemma nodup_foldl_add_node (fn : String) (es : List Entity) :
    ∀ G : Graph, (nodeIds G).Nodup →
      (nodeIds (es.foldl (fun g e => add_node g e.id e.type e.value fn) G)).Nodup := by
  induction es with
  | nil => intro G h; exact h
  | cons e rest ih =>
    intro G h
    rw [List.foldl_cons]
    exact ih _ (nodup_nodeIds_add_node G e.id e.type e.value fn h)

lemma nodup_nodeIds_processReview (G : Graph) (fn : String) (data : Option ExtractedData)
    (h : (nodeIds G).Nodup) : (nodeIds (processReview G fn data)).Nodup := by
  cases data with
  | none => exact h
  | some d =>
    show (nodeIds (d.relationships.foldl _ _)).Nodup
    unfold nodeIds
    rw [nodes_foldl_add_relationship]
    exact nodup_foldl_add_node fn d.entities G h

lemma nodup_nodeIds_buildGraphPhase (extract : String → Option ExtractedData)
    (reviews : List (String × String)) :
    (nodeIds (buildGraphPhase extract reviews)).Nodup := by
  have aux : ∀ (l : List (String × String)) (G : Graph), (nodeIds G).Nodup →
      (nodeIds (l.foldl (fun g fr => processReview g fr.1 (extract fr.2)) G)).Nodup := by
    intro l
    induction l with
    | nil => intro G h; exact h
    | cons fr rest ih =>
      intro G h
      rw [List.foldl_cons]
      exact ih _ (nodup_nodeIds_processReview G fr.1 (extract fr.2) h)
  exact aux reviews emptyGraph List.nodup_nil

lemma nodeIds_set_community_ids (G : Graph) (cs : List (Finset String)) :
    nodeIds (set_community_ids G cs) = nodeIds G := by
  show (G.nodes.map _).map Prod.fst = _
  rw [List.map_map]
  apply List.map_congr_left
  intro p _
  rcases hm : community_map cs p.1 with _ | i <;> simp [Function.comp_apply, hm]

/-! ## C8 -/

lemma create_none_iff {Vec : Type} (embedBatch : List String → Option (List Vec))
    (G : Graph) :
    create_entity_embeddings_index embedBatch G = none
      ↔ entityValues G = [] ∨ embedBatch (entityValues G) = none := by
  unfold create_entity_embeddings_index
  by_cases he : (entityValues G).isEmpty
  · rw [if_pos he]
    simp [List.isEmpty_iff.mp he]
  · rw [if_neg he]
    have hne : entityValues G ≠ [] := by simpa [List.isEmpty_iff] using he
    cases hb : embedBatch (entityValues G) with
    | none => simp [hne]
    | some embs => simp [hne]

lemma create_some_elim {Vec : Type} (embedBatch : List String → Option (List Vec))
    (G : Graph) (p : FaissIndex Vec × List String)
    (hc : create_entity_embeddings_index embedBatch G = some p) :
    entityValues G ≠ [] ∧ embedBatch (entityValues G) = some p.1.rows
      ∧ p.2 = (entityValuePairs G).map Prod.fst := by
  unfold create_entity_embeddings_index at hc
  by_cases he : (entityValues G).isEmpty
  · rw [if_pos he] at hc
    exact absurd hc (by simp)
  · rw [if_neg he] at hc
    have hne : entityValues G ≠ [] := by simpa [List.isEmpty_iff] using he
    cases hb : embedBatch (entityValues G) with
    | none => rw [hb] at hc; exact absurd hc (by simp)
    | some embs =>
      rw [hb] at hc
      simp only [Option.some_inj] at hc
      subst hc
      exact ⟨hne, rfl, rfl⟩

/-- C8: the vector-index step is the build's fatal failure: with no entity
value to embed, index construction returns the explicit nothing-to-index
signal (`none`, never an empty index); on success the index really holds the
backend's vectors for the collected values; and the whole build reports
failure to its caller — producing no artifacts — exactly when the (tagged)
graph has no entity values (which includes the empty-extraction case, aborted
early at line 179) or the embedding/index backend errors. -/
theorem c8_index_failure_fatal {Vec : Type} (extract : String → Option ExtractedData)
    (detect : Graph → List (Finset String)) (summarize : String → Option String)
    (embedBatch : List String → Option (List Vec)) (reviews : List (String × String)) :
    (∀ G : Graph, entityValues G = [] →
        create_entity_embeddings_index embedBatch G = none)
    ∧ (∀ (G : Graph) (p : FaissIndex Vec × List String),
        create_entity_embeddings_index embedBatch G = some p →
          entityValues G ≠ [] ∧ embedBatch (entityValues G) = some p.1.rows)
    ∧ (build_knowledge_graph extract detect summarize embedBatch reviews = none
        ↔ entityValues
            (detect_and_store_communities detect (buildGraphPhase extract reviews)).1 = []
          ∨ embedBatch (entityValues
              (detect_and_store_communities detect (buildGraphPhase extract reviews)).1)
              = none) := by
  refine ⟨?_, ?_, ?_⟩
  · intro G hv
    rw [create_none_iff]
    exact Or.inl hv
  · intro G p hc
    exact ⟨(create_some_elim embedBatch G p hc).1, (create_some_elim embedBatch G p hc).2.1⟩
  · unfold build_knowledge_graph
    by_cases h0 : (buildGraphPhase extract reviews).nodes.length = 0
    · rw [if_pos h0]
      have hnil : (buildGraphPhase extract reviews).nodes = [] := List.length_eq_zero.mp h0
      have hval : entityValues
          (detect_and_store_communities detect (buildGraphPhase extract reviews)).1 = [] := by
        show entityValues (set_community_ids _ _) = []
        unfold entityValues entityValuePairs set_community_ids
        rw [hnil]
        rfl
      simp [hval]
    · rw [if_neg h0]
      rw [← create_none_iff embedBatch
        (detect_and_store_communities detect (buildGraphPhase extract reviews)).1]
      cases hc : create_entity_embeddings_index embedBatch
          (detect_and_store_communities detect (buildGraphPhase extract reviews)).1 with
      | none => simp
      | some p => simp [hc]

/-! ## C3 -/

lemma eq_of_mem_nodup_keys (l : List (String × NodeData))
    (h : (l.map Prod.fst).Nodup) (p q : String × NodeData)
    (hp : p ∈ l) (hq : q ∈ l) (hpq : p.1 = q.1) : p = q := by
  induction l with
  | nil => exact absurd hp (List.not_mem_nil p)
  | cons a rest ih =>
    rw [List.map_cons, List.nodup_cons] at h
    rcases List.mem_cons.mp hp with rfl | hp' <;> rcases List.mem_cons.mp hq with rfl | hq'
    · rfl
    · exact absurd (hpq ▸ List.mem_map_of_mem Prod.fst hq') h.1
    · exact absurd (hpq ▸ List.mem_map_of_mem Prod.fst hp') h.1
    · exact ih h.2 hp' hq'

lemma lookup_of_mem_nodup (G : Graph) (h : (nodeIds G).Nodup) (p : String × NodeData)
    (hp : p ∈ G.nodes) : lookupNode G p.1 = some p.2 := by
  have hsome : (lookupNode G p.1).isSome :=
    (lookupNode_isSome_iff G p.1).mpr (List.mem_map_of_mem Prod.fst hp)
  unfold lookupNode at hsome ⊢
  cases hf : G.nodes.find? (fun q => q.1 = p.1) with
  | none => rw [hf] at hsome; exact absurd hsome (by simp)
  | some q =>
    have hq1 : q.1 = p.1 := by
      have := List.find?_some hf
      simpa using this
    have hqmem : q ∈ G.nodes := List.mem_of_find?_eq_some hf
    have : q = p := eq_of_mem_nodup_keys G.nodes h q p hqmem hp hq1
    rw [this]
    rfl

lemma entityValuePairs_mem (G : Graph) (idv : String × String)
    (h : idv ∈ entityValuePairs G) :
    ∃ p ∈ G.nodes, p.1 = idv.1 ∧ p.2.value = some idv.2 := by
  unfold entityValuePairs at h
  obtain ⟨p, hp, hf⟩ := List.mem_filterMap.mp h
  cases hv : p.2.value with
  | none => rw [hv] at hf; exact absurd hf (by simp)
  | some v =>
    rw [hv] at hf
    simp only [Option.map_some', Option.some_inj] at hf
    exact ⟨p, hp, by rw [← hf], by rw [hv, ← hf]⟩

lemma alignment_of_create {Vec : Type} (embedBatch : List String → Option (List Vec))
    (G : Graph) (idx : FaissIndex Vec) (ids : List String)
    (hn : (nodeIds G).Nodup)
    (hc : create_entity_embeddings_index embedBatch G = some (idx, ids)) :
    ids = (entityValuePairs G).map Prod.fst
    ∧ embedBatch (entityValues G) = some idx.rows
    ∧ ∀ (i : Nat) (h1 : i < ids.length) (h2 : i < (entityValues G).length),
        ∃ d, lookupNode G (ids.get ⟨i, h1⟩) = some d
          ∧ d.value = some ((entityValues G).get ⟨i, h2⟩) := by
  obtain ⟨-, hembed, hids⟩ := create_some_elim embedBatch G (idx, ids) hc
  have hids' : ids = (entityValuePairs G).map Prod.fst := hids
  have hembed' : embedBatch (entityValues G) = some idx.rows := hembed
  refine ⟨hids', hembed', ?_⟩
  intro i h1 h2
  have hpl : i < (entityValuePairs G).length := by
    have h1' := h1
    rw [hids', List.length_map] at h1'
    exact h1'
  have hidget : ids.get ⟨i, h1⟩ = ((entityValuePairs G).get ⟨i, hpl⟩).1 := by
    have := List.get_of_eq hids' ⟨i, h1⟩
    rw [this, List.get_map]
  have hvget : (entityValues G).get ⟨i, h2⟩ = ((entityValuePairs G).get ⟨i, hpl⟩).2 := by
    show (List.map Prod.snd (entityValuePairs G)).get _ = _
    rw [List.get_map]
  obtain ⟨p, hpmem, hp1, hp2⟩ :=
    entityValuePairs_mem G ((entityValuePairs G).get ⟨i, hpl⟩) (List.get_mem _ i hpl)
  refine ⟨p.2, ?_, ?_⟩
  · rw [hidget, ← hp1]
    exact lookup_of_mem_nodup G hn p hpmem
  · rw [hvget]
    exact hp2

/-- C3: after a successful build, the persisted id array and embedding index
are aligned: they are produced together by one pass over the (tagged) graph's
nodes, the index rows are exactly the backend's embeddings of the collected
value texts (given the backend returns one vector per input), the graph's ids
are duplicate-free, and for every position `i` the id at `i` identifies the
entity whose `value` text is the one embedded into row `i`. -/
theorem c3_index_id_alignment {Vec : Type} (extract : String → Option ExtractedData)
    (detect : Graph → List (Finset String)) (summarize : String → Option String)
    (embedBatch : List String → Option (List Vec)) (reviews : List (String × String))
    (a : Artifacts Vec)
    (hlen : ∀ vs out, embedBatch vs = some out → out.length = vs.length)
    (hb : build_knowledge_graph extract detect summarize embedBatch reviews = some a) :
    (nodeIds a.graph).Nodup
    ∧ a.faiss_node_ids = (entityValuePairs a.graph).map Prod.fst
    ∧ embedBatch (entityValues a.graph) = some a.faiss_index.rows
    ∧ a.faiss_node_ids.length = a.faiss_index.rows.length
    ∧ ∀ (i : Nat) (h1 : i < a.faiss_node_ids.length)
        (h2 : i < (entityValues a.graph).length),
        ∃ d, lookupNode a.graph (a.faiss_node_ids.get ⟨i, h1⟩) = some d
          ∧ d.value = some ((entityValues a.graph).get ⟨i, h2⟩) := by
  unfold build_knowledge_graph at hb
  by_cases h0 : (buildGraphPhase extract reviews).nodes.length = 0
  · rw [if_pos h0] at hb
    exact absurd hb (by simp)
  · rw [if_neg h0] at hb
    cases hc : create_entity_embeddings_index embedBatch
        (detect_and_store_communities detect (buildGraphPhase extract reviews)).1 with
    | none => rw [hc] at hb; exact absurd hb (by simp)
    | some p =>
      rw [hc] at hb
      simp only [Option.some_inj] at hb
      have hgraph : a.graph
          = (detect_and_store_communities detect (buildGraphPhase extract reviews)).1 := by
        rw [← hb]
      have hn : (nodeIds a.graph).Nodup := by
        rw [hgraph]
        show (nodeIds (set_community_ids _ _)).Nodup
        rw [nodeIds_set_community_ids]
        exact nodup_nodeIds_buildGraphPhase extract reviews
      have hidx : a.faiss_index = p.1 := by rw [← hb]
      have hids : a.faiss_node_ids = p.2 := by rw [← hb]
      have hc' : create_entity_embeddings_index embedBatch a.graph
          = some (a.faiss_index, a.faiss_node_ids) := by
        rw [hgraph, hidx, hids, hc]
      obtain ⟨h1, h2, h3⟩ :=
        alignment_of_create embedBatch a.graph a.faiss_index a.faiss_node_ids hn hc'
      refine ⟨hn, h1, h2, ?_, h3⟩
      rw [h1, List.length_map]
      have := hlen (entityValues a.graph) a.faiss_index.rows h2
      rw [this]
      unfold entityValues
      rw [List.length_map]

theorem c3_witness :
    (nodeIds aEx.graph).Nodup
    ∧ aEx.faiss_node_ids = (entityValuePairs aEx.graph).map Prod.fst
    ∧ embedBatchEx (entityValues aEx.graph) = some aEx.faiss_index.rows
    ∧ aEx.faiss_node_ids.length = aEx.faiss_index.rows.length
    ∧ ∀ (i : Nat) (h1 : i < aEx.faiss_node_ids.length)
        (h2 : i < (entityValues aEx.graph).length),
        ∃ d, lookupNode aEx.graph (aEx.faiss_node_ids.get ⟨i, h1⟩) = some d
          ∧ d.value = some ((entityValues aEx.graph).get ⟨i, h2⟩) :=
  c3_index_id_alignment extractEx detectEx summarizeEx embedBatchEx reviewsEx aEx
    (fun vs out h => by
      have hoz : vs.map String.length = out := Option.some_inj.mp h
      rw [← hoz, List.length_map])
    (by decide)

/-! ## C5 -/

lemma adjU_symm (G : Graph) {x y : String} (h : adjU G x y) : adjU G y x := by
  obtain ⟨t, h | h⟩ := h
  exacts [⟨t, Or.inr h⟩, ⟨t, Or.inl h⟩]

lemma nodup_of_partition (cs : List (Finset String)) (hne : ∀ c ∈ cs, c.Nonempty)
    (hdisj : cs.Pairwise (fun a b => Disjoint a b)) : cs.Nodup := by
  apply List.Pairwise.imp_of_mem ?_ hdisj
  intro a b ha _ hd heq
  subst heq
  obtain ⟨x, hx⟩ := hne a ha
  rw [disjoint_self] at hd
  rw [hd] at hx
  exact absurd hx (Finset.not_mem_empty x)

/-- The partition invariants of the agglomerative process: every community is
non-empty, communities are pairwise disjoint, their union is exactly the node
set, and an isolated node only ever sits in its own singleton community. -/
lemma cnm_invariant (G : Graph) (hnodup : (nodeIds G).Nodup)
    {cs : List (Finset String)} (h : CNM G cs) :
    (∀ c ∈ cs, c.Nonempty)
    ∧ cs.Pairwise (fun a b => Disjoint a b)
    ∧ (∀ x, (∃ c ∈ cs, x ∈ c) ↔ x ∈ nodeIds G)
    ∧ (∀ x, Isolated G x → ∀ c ∈ cs, x ∈ c → c = {x}) := by
  induction h with
  | init =>
    refine ⟨?_, ?_, ?_, ?_⟩
    · intro c hc
      obtain ⟨p, hp, rfl⟩ := List.mem_map.mp hc
      exact ⟨p.1, Finset.mem_singleton_self _⟩
    · rw [List.pairwise_map]
      have h2 : G.nodes.Pairwise (fun p q => p.1 ≠ q.1) := by
        have := hnodup
        rw [nodeIds, List.Nodup, List.pairwise_map] at this
        exact this
      apply h2.imp
      intro p q hne
      exact Finset.disjoint_singleton.mpr hne
    · intro x
      constructor
      · rintro ⟨c, hc, hx⟩
        obtain ⟨p, hp, rfl⟩ := List.mem_map.mp hc
        rw [Finset.mem_singleton] at hx
        rw [hx]
        exact List.mem_map_of_mem Prod.fst hp
      · intro hx
        obtain ⟨p, hp, rfl⟩ := List.mem_map.mp hx
        exact ⟨{p.1}, List.mem_map_of_mem _ hp, Finset.mem_singleton_self _⟩
    · intro x _ c hc hx
      obtain ⟨p, hp, rfl⟩ := List.mem_map.mp hc
      rw [Finset.mem_singleton] at hx
      rw [hx]
  | merge cs c₁ c₂ h₁ h₂ hne hadj hprev ih =>
    obtain ⟨ihne, ihdisj, ihunion, ihiso⟩ := ih
    have hnodupcs : cs.Nodup := nodup_of_partition cs ihne ihdisj
    have hsym : Symmetric (fun a b : Finset String => Disjoint a b) :=
      fun a b hab => hab.symm
    have hrest : ∀ d ∈ (cs.erase c₁).erase c₂, d ∈ cs ∧ d ≠ c₁ ∧ d ≠ c₂ := by
      intro d hd
      have hd1 := (List.Nodup.mem_erase_iff (hnodupcs.erase c₁)).mp hd
      have hd2 := (List.Nodup.mem_erase_iff hnodupcs).mp hd1.2
      exact ⟨hd2.2, hd2.1, hd1.1⟩
    have hrest' : ∀ d, d ∈ cs → d ≠ c₁ → d ≠ c₂ → d ∈ (cs.erase c₁).erase c₂ := by
      intro d hd hdc1 hdc2
      exact (List.Nodup.mem_erase_iff (hnodupcs.erase c₁)).mpr
        ⟨hdc2, (List.Nodup.mem_erase_iff hnodupcs).mpr ⟨hdc1, hd⟩⟩
    refine ⟨?_, ?_, ?_, ?_⟩
    · intro c hc
      rcases List.mem_cons.mp hc with rfl | hc'
      · obtain ⟨x, hx⟩ := ihne c₁ h₁
        exact ⟨x, Finset.mem_union_left _ hx⟩
      · exact ihne _ (hrest _ hc').1
    · rw [List.pairwise_cons]
      constructor
      · intro d hd
        obtain ⟨hdcs, hdc1, hdc2⟩ := hrest d hd
        have d1 : Disjoint c₁ d := ihdisj.forall hsym h₁ hdcs (Ne.symm hdc1)
        have d2 : Disjoint c₂ d := ihdisj.forall hsym h₂ hdcs (Ne.symm hdc2)
        rw [Finset.disjoint_union_left]
        exact ⟨d1, d2⟩
      · exact List.Pairwise.sublist
          (((cs.erase c₁).erase_sublist c₂).trans (cs.erase_sublist c₁)) ihdisj
    · intro x
      rw [← ihunion x]
      constructor
      · rintro ⟨c, hc, hx⟩
        rcases List.mem_cons.mp hc with rfl | hc'
        · rcases Finset.mem_union.mp hx with hx | hx
          exacts [⟨c₁, h₁, hx⟩, ⟨c₂, h₂, hx⟩]
        · exact ⟨c, (hrest c hc').1, hx⟩
      · rintro ⟨c, hc, hx⟩
        by_cases e1 : c = c₁
        · subst e1
          exact ⟨c ∪ c₂, List.mem_cons_self _ _, Finset.mem_union_left _ hx⟩
        by_cases e2 : c = c₂
        · subst e2
          exact ⟨c₁ ∪ c, List.mem_cons_self _ _, Finset.mem_union_right _ hx⟩
        exact ⟨c, List.mem_cons_of_mem _ (hrest' c hc e1 e2), hx⟩
    · intro x hiso c hc hx
      rcases List.mem_cons.mp hc with rfl | hc'
      · exfalso
        obtain ⟨xa, hxa, yb, hyb, hadj'⟩ := hadj
        rcases Finset.mem_union.mp hx with hx1 | hx2
        · have hc1x : c₁ = {x} := ihiso x hiso c₁ h₁ hx1
          rw [hc1x, Finset.mem_singleton] at hxa
          subst hxa
          exact hiso yb hadj'
        · have hc2x : c₂ = {x} := ihiso x hiso c₂ h₂ hx2
          rw [hc2x, Finset.mem_singleton] at hyb
          subst hyb
          exact hiso xa (adjU_symm G hadj')
      · exact ihiso x hiso c (hrest c hc').1 hx
  | perm cs cs' hperm hprev ih =>
    obtain ⟨ihne, ihdisj, ihunion, ihiso⟩ := ih
    refine ⟨?_, ?_, ?_, ?_⟩
    · intro c hc
      exact ihne c (hperm.mem_iff.mpr hc)
    · exact (hperm.pairwise_iff (fun hab => hab.symm)).mp ihdisj
    · intro x
      rw [← ihunion x]
      constructor
      · rintro ⟨c, hc, hx⟩
        exact ⟨c, hperm.mem_iff.mpr hc, hx⟩
      · rintro ⟨c, hc, hx⟩
        exact ⟨c, hperm.mem_iff.mp hc, hx⟩
    · intro x hiso c hc hx
      exact ihiso x hiso c (hperm.mem_iff.mpr hc) hx

lemma community_mapAux_acc_some (x : String) (l : List (Nat × Finset String)) :
    ∀ acc r, community_mapAux x l acc = some r →
      (∃ p ∈ l, p.1 = r ∧ x ∈ p.2) ∨ acc = some r := by
  induction l with
  | nil => intro acc r h; exact Or.inr h
  | cons p rest ih =>
    intro acc r h
    rw [community_mapAux] at h
    rcases ih _ r h with ⟨q, hq, hq1, hq2⟩ | hacc
    · exact Or.inl ⟨q, List.mem_cons_of_mem _ hq, hq1, hq2⟩
    · by_cases hx : x ∈ p.2
      · rw [if_pos hx] at hacc
        exact Or.inl ⟨p, List.mem_cons_self _ _, Option.some_inj.mp hacc, hx⟩
      · rw [if_neg hx] at hacc
        exact Or.inr hacc

lemma community_mapAux_isSome (x : String) (l : List (Nat × Finset String)) :
    ∀ acc, ((∃ p ∈ l, x ∈ p.2) ∨ acc.isSome) → (community_mapAux x l acc).isSome := by
  induction l with
  | nil =>
    intro acc h
    rcases h with ⟨p, hp, -⟩ | h
    · exact absurd hp (List.not_mem_nil p)
    · exact h
  | cons p rest ih =>
    intro acc h
    rw [community_mapAux]
    rcases h with ⟨q, hq, hx⟩ | hs
    · rcases List.mem_cons.mp hq with rfl | hq'
      · apply ih
        right
        rw [if_pos hx]
        rfl
      · exact ih _ (Or.inl ⟨q, hq', hx⟩)
    · apply ih
      right
      by_cases hx : x ∈ p.2
      · rw [if_pos hx]; rfl
      · rw [if_neg hx]; exact hs

/-- When `x` lies in exactly one community (the one at index `i`), the dict
comprehension maps it to `i`. -/
lemma community_map_spec (cs : List (Finset String)) (x : String) (i : Nat)
    (hi : i < cs.length) (hx : x ∈ cs.get ⟨i, hi⟩)
    (huniq : ∀ (j : Nat) (hj : j < cs.length), x ∈ cs.get ⟨j, hj⟩ → j = i) :
    community_map cs x = some i := by
  have hsome : (community_map cs x).isSome := by
    apply community_mapAux_isSome
    left
    refine ⟨(i, cs.get ⟨i, hi⟩), ?_, hx⟩
    rw [List.mem_enum_iff_get?]
    exact List.get?_eq_get hi
  obtain ⟨r, hr⟩ := Option.isSome_iff_exists.mp hsome
  rcases community_mapAux_acc_some x cs.enum none r hr with ⟨p, hp, hp1, hp2⟩ | habs
  · rw [List.mem_enum_iff_get?] at hp
    have hlt : p.1 < cs.length := by
      by_contra hge
      rw [List.get?_eq_none.mpr (by omega)] at hp
      exact absurd hp (by simp)
    have hget : cs.get ⟨p.1, hlt⟩ = p.2 := by
      have h2 := List.get?_eq_get hlt
      rw [hp] at h2
      exact (Option.some_inj.mp h2).symm
    have hpi : p.1 = i := huniq p.1 hlt (by rw [hget]; exact hp2)
    rw [hr, ← hp1, hpi]
  · exact absurd habs (by simp)

/-- C5: with the detector's output being any run of the agglomerative process
on the graph's undirected projection, tagging assigns every node exactly one
`community_id` — the index of the unique community containing it — the
communities are pairwise disjoint, their union is exactly the node set, and
every isolated node forms a singleton community. -/
theorem c5_community_coverage (G : Graph) (detect : Graph → List (Finset String))
    (hnodup : (nodeIds G).Nodup) (hcnm : CNM G (detect G)) :
    detect_and_store_communities detect G = (set_community_ids G (detect G), detect G)
    ∧ (∀ p ∈ (set_community_ids G (detect G)).nodes,
        ∃ (i : Nat) (hi : i < (detect G).length),
          p.2.community_id = some i ∧ p.1 ∈ (detect G).get ⟨i, hi⟩
          ∧ ∀ (j : Nat) (hj : j < (detect G).length),
              p.1 ∈ (detect G).get ⟨j, hj⟩ → j = i)
    ∧ (detect G).Pairwise (fun a b => Disjoint a b)
    ∧ (∀ x, (∃ c ∈ detect G, x ∈ c) ↔ x ∈ nodeIds G)
    ∧ (∀ x, x ∈ nodeIds G → Isolated G x → ({x} : Finset String) ∈ detect G) := by
  obtain ⟨hne, hdisj, hunion, hiso⟩ := cnm_invariant G hnodup hcnm
  refine ⟨rfl, ?_, hdisj, hunion, ?_⟩
  · intro p hp
    unfold set_community_ids at hp
    obtain ⟨q, hq, htag⟩ := List.mem_map.mp hp
    obtain ⟨c, hc, hqc⟩ := (hunion q.1).mpr (List.mem_map_of_mem Prod.fst hq)
    obtain ⟨idx, hidx⟩ := List.mem_iff_get.mp hc
    have hqidx : q.1 ∈ (detect G).get idx := by
      rw [hidx]
      exact hqc
    have huniq : ∀ (j : Nat) (hj : j < (detect G).length),
        q.1 ∈ (detect G).get ⟨j, hj⟩ → j = idx.1 := by
      intro j hj hqj
      by_contra hjne
      have hdisj2 : Disjoint ((detect G).get ⟨j, hj⟩) ((detect G).get idx) := by
        rcases Nat.lt_or_ge j idx.1 with hlt | hge
        · exact (List.pairwise_iff_get.mp hdisj) ⟨j, hj⟩ idx hlt
        · have hgt : idx.1 < j := by omega
          exact ((List.pairwise_iff_get.mp hdisj) idx ⟨j, hj⟩ hgt).symm
      exact absurd hqidx (Finset.disjoint_left.mp hdisj2 hqj)
    have hmap : community_map (detect G) q.1 = some idx.1 := by
      apply community_map_spec (detect G) q.1 idx.1 idx.2
      · have : (⟨idx.1, idx.2⟩ : Fin (detect G).length) = idx := rfl
        rw [this]
        exact hqidx
      · exact huniq
    subst htag
    refine ⟨idx.1, idx.2, ?_, ?_, ?_⟩
    · simp only [hmap]
    · simp only [hmap]
      exact hqidx
    · simp only [hmap]
      exact huniq
  · intro x hx hisox
    obtain ⟨c, hc, hxc⟩ := (hunion x).mpr hx
    have hcx := hiso x hisox c hc hxc
    rw [← hcx]
    exact hc

/-- A concrete run of the agglomerative process on `Gex`: start from the
singletons, merge `{"a"}` and `{"b"}` along the edge `a → b`, reorder. -/
lemma cnm_detectEx : CNM Gex (detectEx Gex) := by
  have h0 : CNM Gex [({"a"} : Finset String), {"b"}, {"c"}] := by
    have := CNM.init (G := Gex)
    simpa using this
  have h1 := CNM.merge (G := Gex) [({"a"} : Finset String), {"b"}, {"c"}] {"a"} {"b"}
    (by decide) (by decide) (by decide)
    ⟨"a", by decide, "b", by decide, ⟨"related_to", Or.inl (by decide)⟩⟩ h0
  have h2 : (([({"a"} : Finset String), {"b"}, {"c"}].erase {"a"}).erase {"b"}) = [{"c"}] := by
    decide
  rw [h2] at h1
  exact CNM.perm _ _ (by decide) h1

theorem c5_witness :
    detect_and_store_communities detectEx Gex
      = (set_community_ids Gex (detectEx Gex), detectEx Gex)
    ∧ (∀ p ∈ (set_community_ids Gex (detectEx Gex)).nodes,
        ∃ (i : Nat) (hi : i < (detectEx Gex).length),
          p.2.community_id = some i ∧ p.1 ∈ (detectEx Gex).get ⟨i, hi⟩
          ∧ ∀ (j : Nat) (hj : j < (detectEx Gex).length),
              p.1 ∈ (detectEx Gex).get ⟨j, hj⟩ → j = i)
    ∧ (detectEx Gex).Pairwise (fun a b => Disjoint a b)
    ∧ (∀ x, (∃ c ∈ detectEx Gex, x ∈ c) ↔ x ∈ nodeIds Gex)
    ∧ (∀ x, x ∈ nodeIds Gex → Isolated Gex x → ({x} : Finset String) ∈ detectEx Gex) :=
  c5_community_coverage Gex detectEx (by decide) cnm_detectEx

end UFA
